import Mathlib

/-!
# revkit synthesis bindings (`src/ext/synthesis.cpp`)

A shallow embedding of the binding layer: the helper `_filename_extension`,
the template function `_lhrs_wrapper`, and the bound entry points
`gray_synth`, `oracle_synth`, `dbs` and `lhrs`.  The wrapped libraries are
external; every call into them is recorded in the value the model returns.

`std::string` is modelled as `List Char`, one `Char` per C++ `char`.  Every
byte string is such a list (byte `b` is the character with code `b`), so a
statement proved for all lists holds for all byte strings.  The only
characters the code inspects are ASCII (`'.'`, `'1'`, and the letters changed
by `tolower`); `tolower` leaves every other character unchanged.
-/

namespace revkit

/-! ## Strings -/

/-- The C++ `std::string`. -/
abbrev std_string := List Char

/-- Values thrown by the code: `throw "literal"` throws a C string,
`throw "literal" + ext` throws a `std::string`, and `substr` throws
`std::out_of_range` when the start position is past the end. -/
inductive thrown where
  | c_str (msg : std_string)
  | str (msg : std_string)
  | out_of_range
  deriving DecidableEq, Repr

/-- The backward scan of `std::string::rfind (char, pos)`: tries the indices
`n - 1, n - 2, ..., 0` and returns the first one holding `c`. -/
def rfind_loop (s : std_string) (c : Char) : Nat → Option Nat
  | 0 => none
  | k + 1 => if s[k]? = some c then some k else rfind_loop s c k

/-- The C++ `s.rfind (c, pos)`; `none` stands for `std::string::npos`. -/
def rfind (s : std_string) (c : Char) (pos : Nat) : Option Nat :=
  if s.length = 0 then none else rfind_loop s c (min (s.length - 1) pos + 1)

/-- The C++ `s.substr (pos, n)`. -/
def substr (s : std_string) (pos n : Nat) : Except thrown std_string :=
  if pos > s.length then .error .out_of_range else .ok ((s.drop pos).take n)

/-- Source lines 48-58. -/
def _filename_extension (filename : std_string) : Except thrown std_string :=
  match rfind filename '.' filename.length with
  | some i => substr filename (i + 1) (filename.length - i)
  | none => .ok []

/-- The C function `tolower` in the "C" locale. -/
def tolower (c : Char) : Char :=
  if 'A' ≤ c ∧ c ≤ 'Z' then Char.ofNat (c.toNat + 32) else c

/-- The in-place `std::transform (ext.begin (), ext.end (), ext.begin (), ::tolower)`. -/
def transform_tolower (ext : std_string) : std_string :=
  ext.map tolower

/-! ## Enumerations

A scoped enumeration has underlying type `int`, and the Python constructor of
a bound enumeration accepts any integer, so an enumeration value is modelled
by its integer; the enumerators are numbered in declaration order. -/

/-- Source lines 40-46. -/
abbrev mapping_strategy_type := Int
def mapping_strategy_type.bennett : mapping_strategy_type := 0
def mapping_strategy_type.bennett_inplace : mapping_strategy_type := 1
def mapping_strategy_type.eager : mapping_strategy_type := 2
def mapping_strategy_type.pebbling : mapping_strategy_type := 3

/-- Source lines 183-188. -/
abbrev oracle_synth_type := Int
def oracle_synth_type.pkrm : oracle_synth_type := 0
def oracle_synth_type.pprm : oracle_synth_type := 1
def oracle_synth_type.spectrum : oracle_synth_type := 2

/-- Source lines 286-293. -/
abbrev lhrs_network_type := Int
def lhrs_network_type.aig : lhrs_network_type := 0
def lhrs_network_type.xag : lhrs_network_type := 1
def lhrs_network_type.mig : lhrs_network_type := 2
def lhrs_network_type.xmg : lhrs_network_type := 3
def lhrs_network_type.klut : lhrs_network_type := 4

/-! ## Objects of the wrapped libraries -/

/-- The three single-target-gate synthesizers of tweedledum. -/
inductive stg where
  | stg_from_pkrm
  | stg_from_pprm
  | stg_from_spectrum
  deriving DecidableEq, Repr

/-- The `std::function` type of source line 60; every value built in this
file wraps one of the three synthesizers. -/
abbrev lut_synthesis_t := stg

/-- The network classes the template `_lhrs_wrapper` is instantiated with. -/
inductive LogicNetwork where
  | aig_network
  | xag_network
  | mig_network
  | xmg_network
  | klut_network
  deriving DecidableEq, Repr

/-- The parameter record of the pebbling strategy; the code sets
`pebble_limit` and leaves every other field at its default. -/
structure pebbling_mapping_strategy_params where
  pebble_limit : Nat
  deriving DecidableEq, Repr

/-- The strategy objects built at source lines 102-118. -/
inductive mapping_strategy where
  | bennett_inplace_mapping_strategy
  | bennett_mapping_strategy
  | eager_mapping_strategy
  | pebbling_mapping_strategy (ps : pebbling_mapping_strategy_params)
  deriving DecidableEq, Repr

/-- The index of a qubit (`tweedledum::qubit_id` built from a `uint32_t`). -/
abbrev qubit_id := Nat

/-- Modelled from the spec: `netlist_t` is declared in `types.hpp`, which is
not among the sources.  A circuit is a number of qubits and a list of gates;
the binding itself only default-constructs it and adds qubits, gates are added
by the synthesis libraries. -/
structure netlist_t (gate : Type) where
  num_qubits : Nat
  gates : List gate

/-- A default-constructed circuit. -/
def netlist_t.empty {gate : Type} : netlist_t gate :=
  { num_qubits := 0, gates := [] }

/-- The method `circ.add_qubit ()`. -/
def netlist_t.add_qubit {gate : Type} (circ : netlist_t gate) : netlist_t gate :=
  { circ with num_qubits := circ.num_qubits + 1 }

/-- Modelled from the spec: `truth_table_t` is declared in `types.hpp`, which
is not among the sources.  A Boolean function of `num_vars` inputs with its
table of values. -/
structure truth_table_t where
  num_vars : Nat
  bits : List Bool
  deriving DecidableEq, Repr

/-- The statistics record filled by `caterpillar::logic_network_synthesis`. -/
structure logic_network_synthesis_stats where
  i_indexes : List Nat
  o_indexes : List Nat
  deriving DecidableEq, Repr

/-- What the wrapped libraries return.  `network` is the content of a logic
network, `gate` the gate type of a circuit. -/
structure libraries (network gate : Type) where
  new_network : LogicNetwork → network
  read_verilog : std_string → network → network
  read_aiger : std_string → network → network
  read_bench : std_string → network → network
  logic_network_synthesis :
    netlist_t gate → network → mapping_strategy → lut_synthesis_t →
      netlist_t gate × logic_network_synthesis_stats
  stg_apply : stg → netlist_t gate → List qubit_id → truth_table_t → netlist_t gate
  dbs : List Nat → stg → netlist_t gate

/-- A call into a wrapped library, with the arguments the binding chose. -/
inductive lib_call where
  | read_verilog (filename : std_string) (ntk : LogicNetwork)
  | read_aiger (filename : std_string) (ntk : LogicNetwork)
  | read_bench (filename : std_string) (ntk : LogicNetwork)
  | logic_network_synthesis (ntk : LogicNetwork) (strategy : mapping_strategy)
      (lut_synthesis : lut_synthesis_t)
  deriving DecidableEq, Repr

/-- The library calls made by a run, in order, and how the run ended. -/
structure outcome (α : Type) where
  calls : List lib_call
  result : Except thrown α

/-! ## `_lhrs_wrapper` -/

/-- The C++ `std::unordered_map<std::string, std::vector<uint32_t>>`, as a list
of bindings with distinct keys. -/
abbrev stats_map := List (std_string × List Nat)

/-- The assignment `m[key] = value`. -/
def stats_map.assign : stats_map → std_string → List Nat → stats_map
  | [], key, value => [(key, value)]
  | (k, v) :: m, key, value =>
    if k = key then (k, value) :: m else (k, v) :: stats_map.assign m key value

/-- Lookup of a key. -/
def stats_map.find : stats_map → std_string → Option (List Nat)
  | [], _ => none
  | (k, v) :: m, key => if k = key then some v else stats_map.find m key

/-- The file-extension dispatch of source lines 71-100: the calls made and the
network after reading, or the thrown value. -/
def _lhrs_wrapper_read {network gate : Type} (lib : libraries network gate)
    (LN : LogicNetwork) (filename ext : std_string) (ntk : network) :
    Except thrown (List lib_call × network) :=
  if ext = "v".toList then
    if LN ≠ LogicNetwork.klut_network then
      .ok ([lib_call.read_verilog filename LN], lib.read_verilog filename ntk)
    else
      .error (thrown.c_str "unsupported network type for Verilog files".toList)
  else if ext = "aig".toList then
    .ok ([lib_call.read_aiger filename LN], lib.read_aiger filename ntk)
  else if ext = "bench".toList then
    if LN = LogicNetwork.klut_network then
      .ok ([lib_call.read_bench filename LN], lib.read_bench filename ntk)
    else
      .error (thrown.c_str "unsupported network type for BENCH files".toList)
  else
    .error (thrown.str ("unknown file extension: ".toList ++ ext))

/-- The strategy lambda of source lines 102-118. -/
def _lhrs_wrapper_strategy (strategy_type : mapping_strategy_type) (num_pebbles : Nat) :
    mapping_strategy :=
  if strategy_type = mapping_strategy_type.bennett_inplace then
    mapping_strategy.bennett_inplace_mapping_strategy
  else if strategy_type = mapping_strategy_type.bennett then
    mapping_strategy.bennett_mapping_strategy
  else if strategy_type = mapping_strategy_type.eager then
    mapping_strategy.eager_mapping_strategy
  else if strategy_type = mapping_strategy_type.pebbling then
    mapping_strategy.pebbling_mapping_strategy { pebble_limit := num_pebbles }
  else
    mapping_strategy.bennett_inplace_mapping_strategy

/-- Source lines 62-129, for the instantiation at the network class `LN`. -/
def _lhrs_wrapper {network gate : Type} (lib : libraries network gate) (LN : LogicNetwork)
    (filename : std_string) (strategy_type : mapping_strategy_type)
    (lut_synthesis : lut_synthesis_t) (num_pebbles : Nat) :
    outcome (netlist_t gate × stats_map) :=
  let ntk := lib.new_network LN
  match _filename_extension filename with
  | .error e => { calls := [], result := .error e }
  | .ok ext0 =>
    let ext := transform_tolower ext0
    match _lhrs_wrapper_read lib LN filename ext ntk with
    | .error e => { calls := [], result := .error e }
    | .ok (reads, ntk1) =>
      let strategy := _lhrs_wrapper_strategy strategy_type num_pebbles
      let circ : netlist_t gate := netlist_t.empty
      let r := lib.logic_network_synthesis circ ntk1 strategy lut_synthesis
      let st := r.2
      let stats : stats_map := []
      let stats := stats.assign "input_indexes".toList st.i_indexes
      let stats := stats.assign "output_indexes".toList st.o_indexes
      { calls := reads ++ [lib_call.logic_network_synthesis LN strategy lut_synthesis],
        result := .ok (r.1, stats) }

/-! ## `gray_synth` -/

/-- Conversion of an integer to `int` (32 bits, two's complement). -/
def to_int32 (x : Int) : Int :=
  (x + 2 ^ 31) % 2 ^ 32 - 2 ^ 31

/-- Conversion of an integer to `uint32_t`. -/
def to_uint32 (x : Int) : Nat :=
  (x % 2 ^ 32).toNat

/-- The expression `a << n` on `int`; a shift by the width or more is
undefined and yields `none`. -/
def shl_int (a : Int) (n : Nat) : Option Int :=
  if n < 32 then some (to_int32 (a * 2 ^ n)) else none

/-- The body of the loop at source lines 152-158 for index `i`. -/
def iterm_step (term : std_string) (iterm : Nat) (i : Nat) : Option Nat :=
  if term[i]? = some '1' then
    (shl_int 1 i).map (fun v => iterm ||| to_uint32 v)
  else
    some iterm

/-- Source lines 151-158: the mask of one term.  The counter `i` is a 32-bit
unsigned integer compared with the `size_t` length, so the loop only ends for
a term shorter than `2 ^ 32`. -/
def gray_synth_iterm (term : std_string) : Option Nat :=
  if term.length < 2 ^ 32 then
    (List.range term.length).foldlM (iterm_step term) 0
  else
    none

/-- The calls `gray_synth` makes: the `add_term` calls in order, then
`tweedledum::gray_synth` with `num_vars`. -/
structure gray_synth_calls (angle : Type) where
  add_term : List (Nat × angle)
  num_vars : Nat

/-- The loop over the arguments, source lines 140-160. -/
def gray_synth_loop {angle : Type} :
    List (std_string × angle) → Nat → List (Nat × angle) → Option (gray_synth_calls angle)
  | [], num_vars, parities => some { add_term := parities, num_vars := num_vars }
  | (term, a) :: rest, num_vars, parities =>
    let num_vars := if num_vars = 0 then term.length % 2 ^ 32 else num_vars
    match gray_synth_iterm term with
    | none => none
    | some iterm => gray_synth_loop rest num_vars (parities ++ [(iterm, a)])

/-- Source lines 136-162. -/
def gray_synth {angle : Type} (parity_terms : List (std_string × angle)) :
    Option (gray_synth_calls angle) :=
  gray_synth_loop parity_terms 0 []

/-! ## `oracle_synth` and `dbs` -/

/-- A loop `for (auto i = 0u; i < bound; ++i)` with `bound` a `uint32_t`: the
body runs for `i = 0, ..., bound - 1`. -/
def for_loop {σ : Type} (bound : Nat) (body : Nat → σ → σ) (init : σ) : σ :=
  (List.range bound).foldl (fun s i => body i s) init

/-- The C++ `std::iota` over `size` elements starting from the `uint32_t`
value `value`. -/
def iota : Nat → Nat → List qubit_id
  | 0, _ => []
  | size + 1, value => value :: iota size ((value + 1) % 2 ^ 32)

/-- The `switch` of source lines 206-218 (and 253-262). -/
def oracle_synth_switch (kind : oracle_synth_type) : stg :=
  if kind = oracle_synth_type.spectrum then stg.stg_from_spectrum
  else if kind = oracle_synth_type.pkrm then stg.stg_from_pkrm
  else if kind = oracle_synth_type.pprm then stg.stg_from_pprm
  else stg.stg_from_spectrum

/-- The arguments of the call to a single-target-gate synthesizer. -/
structure stg_call (gate : Type) where
  synth : stg
  circ : netlist_t gate
  qubits : List qubit_id
  function : truth_table_t

/-- Source lines 197-221: the call made and the circuit returned. -/
def oracle_synth {network gate : Type} (lib : libraries network gate)
    (function : truth_table_t) (kind : oracle_synth_type) :
    stg_call gate × netlist_t gate :=
  let bound := (function.num_vars + 1) % 2 ^ 32
  let circ : netlist_t gate := for_loop bound (fun _ c => c.add_qubit) netlist_t.empty
  let qubits := iota bound 0
  let synth := oracle_synth_switch kind
  ({ synth := synth, circ := circ, qubits := qubits, function := function },
    lib.stg_apply synth circ qubits function)

/-- The `switch` of source lines 253-262. -/
def dbs_switch (kind : oracle_synth_type) : stg :=
  if kind = oracle_synth_type.spectrum then stg.stg_from_spectrum
  else if kind = oracle_synth_type.pkrm then stg.stg_from_pkrm
  else if kind = oracle_synth_type.pprm then stg.stg_from_pprm
  else stg.stg_from_spectrum

/-- Source lines 252-263: the synthesizer handed to `tweedledum::dbs` and the
circuit returned. -/
def dbs {network gate : Type} (lib : libraries network gate)
    (perm : List Nat) (kind : oracle_synth_type) : stg × netlist_t gate :=
  let synth := dbs_switch kind
  (synth, lib.dbs perm synth)

/-! ## `lhrs` -/

/-- The lambda of source lines 312-323. -/
def lut_synthesis_fn (lut_synthesis : oracle_synth_type) : lut_synthesis_t :=
  if lut_synthesis = oracle_synth_type.spectrum then stg.stg_from_spectrum
  else if lut_synthesis = oracle_synth_type.pprm then stg.stg_from_pprm
  else if lut_synthesis = oracle_synth_type.pkrm then stg.stg_from_pkrm
  else stg.stg_from_spectrum

/-- The template argument chosen by the `switch` of source lines 325-338. -/
def lhrs_network (network_type : lhrs_network_type) : LogicNetwork :=
  if network_type = lhrs_network_type.aig then LogicNetwork.aig_network
  else if network_type = lhrs_network_type.xag then LogicNetwork.xag_network
  else if network_type = lhrs_network_type.mig then LogicNetwork.mig_network
  else if network_type = lhrs_network_type.xmg then LogicNetwork.xmg_network
  else if network_type = lhrs_network_type.klut then LogicNetwork.klut_network
  else LogicNetwork.xag_network

/-- Source lines 311-339. -/
def lhrs {network gate : Type} (lib : libraries network gate) (filename : std_string)
    (network_type : lhrs_network_type) (strategy : mapping_strategy_type)
    (lut_synthesis : oracle_synth_type) (num_pebbles : Nat) :
    outcome (netlist_t gate × stats_map) :=
  _lhrs_wrapper lib (lhrs_network network_type) filename strategy
    (lut_synthesis_fn lut_synthesis) num_pebbles

/-! ## Default arguments of the bindings

An argument left out of the Python call is `none`; the binding substitutes the
default given in the `m.def` call. -/

/-- The binding of `lhrs`, source line 364. -/
def lhrs_binding {network gate : Type} (lib : libraries network gate) (filename : std_string)
    (network_type : Option lhrs_network_type) (strategy : Option mapping_strategy_type)
    (lut_synthesis : Option oracle_synth_type) (num_pebbles : Option Nat) :
    outcome (netlist_t gate × stats_map) :=
  lhrs lib filename (network_type.getD lhrs_network_type.xag)
    (strategy.getD mapping_strategy_type.bennett_inplace)
    (lut_synthesis.getD oracle_synth_type.spectrum) (num_pebbles.getD 0)

/-- A library whose readers and synthesis routines return fixed values, used
to evaluate the bindings on concrete inputs. -/
def sample_lib : libraries Nat Nat where
  new_network := fun _ => 0
  read_verilog := fun _ n => n + 1
  read_aiger := fun _ n => n + 2
  read_bench := fun _ n => n + 3
  logic_network_synthesis := fun c n _ _ =>
    ({ c with gates := [n] }, { i_indexes := [0, 1], o_indexes := [2] })
  stg_apply := fun _ c _ _ => c
  dbs := fun _ _ => netlist_t.empty

/-! ## Facts about the string helpers -/

theorem rfind_loop_none (s : std_string) (c : Char) (n : Nat) (hn : n ≤ s.length) :
    rfind_loop s c n = none ↔ c ∉ s.take n := by
  induction n with
  | zero => simp [rfind_loop]
  | succ k ih =>
    have hk : k < s.length := hn
    have hk' : k ≤ s.length := Nat.le_of_lt hk
    have e : s.take (k + 1) = s.take k ++ [s[k]] := by
      rw [List.take_succ, List.getElem?_eq_getElem hk]; rfl
    rw [rfind_loop, e, List.getElem?_eq_getElem hk]
    by_cases h : s[k] = c
    · simp [h]
    · have h' : ¬ c = s[k] := fun e => h e.symm
      have hs : ¬ (some s[k] = some c) := fun e => h (Option.some.inj e)
      rw [if_neg hs, ih hk']
      simp only [List.mem_append, List.mem_singleton, not_or]
      exact ⟨fun a => ⟨a, h'⟩, fun a => a.1⟩

theorem rfind_loop_some (s : std_string) (c : Char) (n i : Nat) (hn : n ≤ s.length)
    (h : rfind_loop s c n = some i) :
    i < n ∧ s[i]? = some c ∧ c ∉ (s.drop (i + 1)).take (n - (i + 1)) := by
  induction n with
  | zero => simp [rfind_loop] at h
  | succ k ih =>
    have hk : k < s.length := hn
    rw [rfind_loop] at h
    by_cases hc : s[k]? = some c
    · rw [if_pos hc] at h
      cases h
      simp [hc]
    · rw [if_neg hc] at h
      obtain ⟨h1, h2, h3⟩ := ih (Nat.le_of_lt hk) h
      refine ⟨by omega, h2, ?_⟩
      have e : k + 1 - (i + 1) = (k - (i + 1)) + 1 := by omega
      rw [e, List.take_succ]
      have hidx : i + 1 + (k - (i + 1)) = k := by omega
      simp only [List.mem_append, not_or]
      refine ⟨h3, ?_⟩
      rw [List.getElem?_drop, hidx]
      intro hm
      apply hc
      rw [List.getElem?_eq_getElem hk] at hm ⊢
      simp at hm
      simp [hm]

theorem rfind_full_none (s : std_string) (c : Char) :
    rfind s c s.length = none ↔ c ∉ s := by
  unfold rfind
  by_cases h0 : s.length = 0
  · have : s = [] := List.length_eq_zero.mp h0
    subst this
    simp
  · rw [if_neg h0]
    have e : min (s.length - 1) s.length + 1 = s.length := by omega
    rw [e, rfind_loop_none s c s.length (Nat.le_refl _), List.take_length]

theorem rfind_full_some (s : std_string) (c : Char) (i : Nat)
    (h : rfind s c s.length = some i) :
    i < s.length ∧ s[i]? = some c ∧ c ∉ s.drop (i + 1) := by
  unfold rfind at h
  by_cases h0 : s.length = 0
  · rw [if_pos h0] at h; cases h
  · rw [if_neg h0] at h
    have e : min (s.length - 1) s.length + 1 = s.length := by omega
    rw [e] at h
    obtain ⟨h1, h2, h3⟩ := rfind_loop_some s c s.length i (Nat.le_refl _) h
    refine ⟨h1, h2, ?_⟩
    have e2 : List.take (s.length - (i + 1)) (List.drop (i + 1) s) = List.drop (i + 1) s := by
      apply List.take_of_length_le
      simp
    rw [e2] at h3
    exact h3

/-- When the last occurrence of the dot is at index `i`, the result is
everything after index `i`. -/
theorem filename_extension_of_rfind (s : std_string) (i : Nat)
    (h : rfind s '.' s.length = some i) :
    _filename_extension s = .ok (s.drop (i + 1)) ∧ s = s.take i ++ '.' :: s.drop (i + 1) := by
  obtain ⟨h1, h2, _⟩ := rfind_full_some s '.' i h
  constructor
  · unfold _filename_extension
    rw [h]
    show substr s (i + 1) (s.length - i) = _
    unfold substr
    have hle : ¬ (i + 1 > s.length) := by omega
    rw [if_neg hle]
    congr 1
    apply List.take_of_length_le
    simp
    omega
  · rw [List.getElem?_eq_getElem h1] at h2
    have h3 : s[i] = '.' := Option.some.inj h2
    conv_lhs => rw [← List.take_append_drop i s]
    rw [List.drop_eq_getElem_cons h1, h3]

/-- A string split at a dot with no dot after it has the text after that dot
as its extension. -/
theorem filename_extension_of_split (p e : std_string) (he : '.' ∉ e) :
    _filename_extension (p ++ '.' :: e) = .ok e := by
  have hmem : '.' ∈ p ++ '.' :: e := by simp
  cases hr : rfind (p ++ '.' :: e) '.' (p ++ '.' :: e).length with
  | none => exact absurd hmem ((rfind_full_none _ _).mp hr)
  | some i =>
    obtain ⟨h1, h2, h3⟩ := rfind_full_some _ _ i hr
    obtain ⟨h4, _⟩ := filename_extension_of_rfind _ i hr
    rw [h4]
    have hi : i = p.length := by
      rcases Nat.lt_trichotomy i p.length with hlt | heq | hgt
      · exfalso
        apply h3
        have : List.drop (i + 1) (p ++ '.' :: e) = List.drop (i + 1) p ++ '.' :: e := by
          rw [List.drop_append_of_le_length (by omega)]
        rw [this]
        simp
      · exact heq
      · exfalso
        apply he
        have hlen : i - p.length - 1 < e.length := by
          simp at h1; omega
        rw [List.getElem?_append_right (by omega)] at h2
        have e1 : i - p.length = (i - p.length - 1) + 1 := by omega
        rw [e1, List.getElem?_cons_succ] at h2
        exact List.getElem?_mem h2
    subst hi
    simp

/-- The helper never throws. -/
theorem filename_extension_total (s : std_string) :
    ∃ ext, _filename_extension s = .ok ext := by
  cases hr : rfind s '.' s.length with
  | none => exact ⟨[], by unfold _filename_extension; rw [hr]⟩
  | some i => exact ⟨_, (filename_extension_of_rfind s i hr).1⟩

/-- A string splits at its last dot, and has an empty extension without one. -/
theorem filename_extension_split_cases (s : std_string) :
    ('.' ∈ s → ∃ i, _filename_extension s = .ok (s.drop (i + 1)) ∧
      s = s.take i ++ '.' :: s.drop (i + 1) ∧ '.' ∉ s.drop (i + 1)) ∧
    ('.' ∉ s → _filename_extension s = .ok []) := by
  constructor
  · intro hmem
    cases hr : rfind s '.' s.length with
    | none => exact absurd hmem ((rfind_full_none _ _).mp hr)
    | some i =>
      obtain ⟨_, _, h3⟩ := rfind_full_some s '.' i hr
      obtain ⟨h4, h5⟩ := filename_extension_of_rfind s i hr
      exact ⟨i, h4, h5, h3⟩
  · intro hnot
    unfold _filename_extension
    rw [(rfind_full_none s '.').mpr hnot]

/-! ## Claims -/

/-- C8: `_filename_extension` returns the text after the last dot.  For a
string containing a dot the result `ext` has no dot and the string is
`p ++ "." ++ ext` for exactly one `p`; for a string without a dot the result
is empty.  A name ending in a dot gives the empty string, and `dir.v/file`
gives `v/file`. -/
theorem filename_extension_after_last_dot (s : std_string) :
    ('.' ∈ s → ∃ ext, _filename_extension s = .ok ext ∧ '.' ∉ ext ∧
      ∃! p, s = p ++ '.' :: ext) ∧
    ('.' ∉ s → _filename_extension s = .ok []) ∧
    _filename_extension (s ++ ['.']) = .ok [] ∧
    _filename_extension "dir.v/file".toList = .ok "v/file".toList := by
  refine ⟨?_, ?_, ?_, ?_⟩
  · intro hmem
    cases hr : rfind s '.' s.length with
    | none => exact absurd hmem ((rfind_full_none _ _).mp hr)
    | some i =>
      obtain ⟨_, _, h3⟩ := rfind_full_some s '.' i hr
      obtain ⟨h4, h5⟩ := filename_extension_of_rfind s i hr
      refine ⟨s.drop (i + 1), h4, h3, s.take i, h5, ?_⟩
      intro q hq
      have hq' : q ++ '.' :: s.drop (i + 1) = s.take i ++ '.' :: s.drop (i + 1) := by
        rw [← hq, ← h5]
      exact List.append_cancel_right hq'
  · intro hnot
    unfold _filename_extension
    rw [(rfind_full_none s '.').mpr hnot]
  · exact filename_extension_of_split s [] (by simp)
  · exact filename_extension_of_split "dir".toList "v/file".toList (by decide)

/-- C8 at `a.b.c`: the extension is `c` and the unique prefix is `a.b`. -/
theorem filename_extension_after_last_dot_witness :
    '.' ∈ "a.b.c".toList ∧
    ∃ ext, _filename_extension "a.b.c".toList = .ok ext ∧ '.' ∉ ext ∧
      ∃! p, "a.b.c".toList = p ++ '.' :: ext :=
  ⟨by decide, (filename_extension_after_last_dot "a.b.c".toList).1 (by decide)⟩

/-- C1: for a file whose lower-cased extension `e` is `v`, `aig` or `bench`,
and every network class, `_lhrs_wrapper` throws an "unsupported network
type" message exactly when (`e` is `v` and the class is klut) or (`e` is
`bench` and the class is not klut), and then calls neither a reader nor the
synthesis.  In every other combination it calls the reader of that format,
then the synthesis, and returns.  `lhrs` instantiates the wrapper at the
class named by the network type. -/
theorem lhrs_format_network_compatibility {network gate : Type}
    (lib : libraries network gate) (LN : LogicNetwork) (filename ext e : std_string)
    (strategy : mapping_strategy_type) (lut : lut_synthesis_t) (num_pebbles : Nat)
    (hext : _filename_extension filename = .ok ext)
    (hlow : transform_tolower ext = e)
    (he : e = "v".toList ∨ e = "aig".toList ∨ e = "bench".toList) :
    ((∃ msg, (_lhrs_wrapper lib LN filename strategy lut num_pebbles).result
          = .error (thrown.c_str msg) ∧ "unsupported network type".toList <+: msg) ↔
      ((e = "v".toList ∧ LN = LogicNetwork.klut_network) ∨
        (e = "bench".toList ∧ LN ≠ LogicNetwork.klut_network))) ∧
    (((e = "v".toList ∧ LN = LogicNetwork.klut_network) ∨
        (e = "bench".toList ∧ LN ≠ LogicNetwork.klut_network)) →
      (_lhrs_wrapper lib LN filename strategy lut num_pebbles).calls = []) ∧
    (¬ ((e = "v".toList ∧ LN = LogicNetwork.klut_network) ∨
        (e = "bench".toList ∧ LN ≠ LogicNetwork.klut_network)) →
      (∃ r, (_lhrs_wrapper lib LN filename strategy lut num_pebbles).result = .ok r) ∧
      (e = "v".toList →
        (_lhrs_wrapper lib LN filename strategy lut num_pebbles).calls =
          [lib_call.read_verilog filename LN,
            lib_call.logic_network_synthesis LN
              (_lhrs_wrapper_strategy strategy num_pebbles) lut]) ∧
      (e = "aig".toList →
        (_lhrs_wrapper lib LN filename strategy lut num_pebbles).calls =
          [lib_call.read_aiger filename LN,
            lib_call.logic_network_synthesis LN
              (_lhrs_wrapper_strategy strategy num_pebbles) lut]) ∧
      (e = "bench".toList →
        (_lhrs_wrapper lib LN filename strategy lut num_pebbles).calls =
          [lib_call.read_bench filename LN,
            lib_call.logic_network_synthesis LN
              (_lhrs_wrapper_strategy strategy num_pebbles) lut])) ∧
    (∀ (network_type : lhrs_network_type) (lut_kind : oracle_synth_type),
      lhrs lib filename network_type strategy lut_kind num_pebbles =
        _lhrs_wrapper lib (lhrs_network network_type) filename strategy
          (lut_synthesis_fn lut_kind) num_pebbles) ∧
    lhrs_network lhrs_network_type.aig = LogicNetwork.aig_network ∧
    lhrs_network lhrs_network_type.xag = LogicNetwork.xag_network ∧
    lhrs_network lhrs_network_type.mig = LogicNetwork.mig_network ∧
    lhrs_network lhrs_network_type.xmg = LogicNetwork.xmg_network ∧
    lhrs_network lhrs_network_type.klut = LogicNetwork.klut_network := by
  subst hlow
  have hv_aig : ¬ ("aig".toList = "v".toList) := by decide
  have hv_bench : ¬ ("bench".toList = "v".toList) := by decide
  have haig_bench : ¬ ("bench".toList = "aig".toList) := by decide
  have hpre1 : "unsupported network type".toList <+:
      "unsupported network type for Verilog files".toList :=
    ⟨" for Verilog files".toList, by decide⟩
  have hpre2 : "unsupported network type".toList <+:
      "unsupported network type for BENCH files".toList :=
    ⟨" for BENCH files".toList, by decide⟩
  refine ⟨?_, ?_, ?_, fun _ _ => rfl, by decide, by decide, by decide, by decide, by decide⟩
  · rcases he with h | h | h
    · cases LN <;>
        simp [_lhrs_wrapper, hext, h, _lhrs_wrapper_read, hpre1]
    · cases LN <;>
        simp [_lhrs_wrapper, hext, h, _lhrs_wrapper_read, hv_aig, haig_bench]
    · cases LN <;>
        simp [_lhrs_wrapper, hext, h, _lhrs_wrapper_read, hv_bench, haig_bench, hpre2]
  · rintro (⟨h, hk⟩ | ⟨h, hk⟩)
    · subst hk
      simp [_lhrs_wrapper, hext, h, _lhrs_wrapper_read]
    · cases LN
      case klut_network => exact absurd rfl hk
      all_goals simp [_lhrs_wrapper, hext, h, _lhrs_wrapper_read, hv_bench, haig_bench]
  · intro hacc
    rcases he with h | h | h
    · cases LN
      case klut_network => exact absurd (Or.inl ⟨h, rfl⟩) hacc
      all_goals simp [_lhrs_wrapper, hext, h, _lhrs_wrapper_read]
    · cases LN <;>
        simp [_lhrs_wrapper, hext, h, _lhrs_wrapper_read, hv_aig, haig_bench]
    · cases LN
      case klut_network =>
        simp [_lhrs_wrapper, hext, h, _lhrs_wrapper_read, hv_bench, haig_bench]
      all_goals exact absurd (Or.inr ⟨h, by decide⟩) hacc

/-- C1 at `top.V` (lower-cased extension `v`) with a klut network: rejected
with no call made. -/
theorem lhrs_format_network_compatibility_witness :
    _filename_extension "top.V".toList = .ok "V".toList ∧
    transform_tolower "V".toList = "v".toList ∧
    (_lhrs_wrapper sample_lib LogicNetwork.klut_network "top.V".toList
      mapping_strategy_type.eager stg.stg_from_pkrm 0).calls = [] :=
  ⟨rfl, by decide,
    (lhrs_format_network_compatibility sample_lib LogicNetwork.klut_network
      "top.V".toList "V".toList "v".toList mapping_strategy_type.eager stg.stg_from_pkrm 0
      rfl (by decide) (Or.inl rfl)).2.1 (Or.inl ⟨rfl, rfl⟩)⟩

/-- C2: every filename has an extension `ext` (empty when the name has no
dot); when the lower-cased `ext` is none of `v`, `aig`, `bench`, then for every
network class, strategy, LUT synthesis and number of pebbles `_lhrs_wrapper`
throws the string "unknown file extension: " followed by the lower-cased
extension and makes no library call; the same holds through `lhrs` for every
network type and synthesis kind. -/
theorem lhrs_unknown_extension {network gate : Type}
    (lib : libraries network gate) (filename : std_string) :
    ∃ ext, _filename_extension filename = .ok ext ∧
      ('.' ∉ filename → ext = []) ∧
      (transform_tolower ext ≠ "v".toList → transform_tolower ext ≠ "aig".toList →
        transform_tolower ext ≠ "bench".toList →
        (∀ (LN : LogicNetwork) (strategy : mapping_strategy_type) (lut : lut_synthesis_t)
            (num_pebbles : Nat),
          (_lhrs_wrapper lib LN filename strategy lut num_pebbles).calls = [] ∧
          (_lhrs_wrapper lib LN filename strategy lut num_pebbles).result =
            .error (thrown.str ("unknown file extension: ".toList ++ transform_tolower ext))) ∧
        (∀ (network_type : lhrs_network_type) (strategy : mapping_strategy_type)
            (lut_kind : oracle_synth_type) (num_pebbles : Nat),
          (lhrs lib filename network_type strategy lut_kind num_pebbles).calls = [] ∧
          (lhrs lib filename network_type strategy lut_kind num_pebbles).result =
            .error (thrown.str ("unknown file extension: ".toList ++ transform_tolower ext)))) := by
  obtain ⟨ext, hext⟩ := filename_extension_total filename
  refine ⟨ext, hext, ?_, ?_⟩
  · intro hnot
    have h := (filename_extension_split_cases filename).2 hnot
    rw [hext] at h
    exact Except.ok.inj h
  · intro hv haig hbench
    have key : ∀ (LN : LogicNetwork) (strategy : mapping_strategy_type) (lut : lut_synthesis_t)
        (num_pebbles : Nat),
        (_lhrs_wrapper lib LN filename strategy lut num_pebbles).calls = [] ∧
        (_lhrs_wrapper lib LN filename strategy lut num_pebbles).result =
          .error (thrown.str ("unknown file extension: ".toList ++ transform_tolower ext)) := by
      intro LN strategy lut num_pebbles
      have hr : _lhrs_wrapper_read lib LN filename (transform_tolower ext) (lib.new_network LN) =
          .error (thrown.str ("unknown file extension: ".toList ++ transform_tolower ext)) := by
        unfold _lhrs_wrapper_read
        rw [if_neg hv, if_neg haig, if_neg hbench]
      simp only [_lhrs_wrapper, hext, hr, and_self]
    exact ⟨key, fun nt st lk np => key (lhrs_network nt) st (lut_synthesis_fn lk) np⟩

/-- C2 at `net.BLIF`: the thrown string ends in the lower-cased `blif`. -/
theorem lhrs_unknown_extension_witness :
    (_lhrs_wrapper sample_lib LogicNetwork.aig_network "net.BLIF".toList
        mapping_strategy_type.bennett stg.stg_from_spectrum 0).calls = [] ∧
    (_lhrs_wrapper sample_lib LogicNetwork.aig_network "net.BLIF".toList
        mapping_strategy_type.bennett stg.stg_from_spectrum 0).result =
      .error (thrown.str "unknown file extension: blif".toList) := by
  obtain ⟨ext, h1, _, h3⟩ := lhrs_unknown_extension sample_lib "net.BLIF".toList
  have e : ext = "BLIF".toList :=
    Except.ok.inj (h1.symm.trans (rfl : _filename_extension "net.BLIF".toList = _))
  subst e
  exact (h3 (by decide) (by decide) (by decide)).1 LogicNetwork.aig_network
    mapping_strategy_type.bennett stg.stg_from_spectrum 0

/-! ### `gray_synth` -/

/-- For a shift count below 32 the value or-ed into the mask is `2 ^ k`. -/
theorem shl_one_to_uint32 (k : Nat) (hk : k < 32) :
    (shl_int 1 k).map (fun v => to_uint32 v) = some (2 ^ k) := by
  unfold shl_int
  rw [if_pos hk]
  simp only [Option.map_some', Option.some.injEq]
  interval_cases k <;> rfl

/-- One pass of the loop body sets bit `k` exactly when character `k` is `1`. -/
theorem iterm_step_spec (term : std_string) (m k : Nat) (hk : k < 32) :
    ∃ m', iterm_step term m k = some m' ∧
      ∀ i, m'.testBit i = (m.testBit i || (decide (i = k) && decide (term[k]? = some '1'))) := by
  unfold iterm_step
  by_cases h : term[k]? = some '1'
  · rw [if_pos h]
    have hs : shl_int 1 k = some (to_int32 (1 * 2 ^ k)) := by
      unfold shl_int; rw [if_pos hk]
    have hv := shl_one_to_uint32 k hk
    rw [hs] at hv ⊢
    simp only [Option.map_some', Option.some.injEq] at hv
    refine ⟨m ||| 2 ^ k, by rw [Option.map_some', hv], ?_⟩
    intro i
    rw [Nat.testBit_lor, Nat.testBit_two_pow]
    simp [h, eq_comm]
  · rw [if_neg h]
    exact ⟨m, rfl, by intro i; simp [h]⟩

/-- After the first `k` passes the mask holds the first `k` characters. -/
theorem iterm_prefix (term : std_string) (k : Nat) (hk : k ≤ 32) :
    ∃ m, (List.range k).foldlM (iterm_step term) 0 = some m ∧
      ∀ i, m.testBit i = (decide (i < k) && decide (term[i]? = some '1')) := by
  induction k with
  | zero => exact ⟨0, rfl, by intro i; simp⟩
  | succ k ih =>
    obtain ⟨m, hm, hbits⟩ := ih (by omega)
    obtain ⟨m', hm', hbits'⟩ := iterm_step_spec term m k (by omega)
    refine ⟨m', ?_, ?_⟩
    · rw [List.range_succ, List.foldlM_append, hm]
      simp [List.foldlM, hm']
    · intro i
      rw [hbits', hbits]
      by_cases e : i = k
      · subst e; simp
      · have : (i < k + 1) = (i < k) := by
          apply propext; omega
        simp [e, this]

/-- The mask of a term of length at most 32. -/
theorem gray_synth_iterm_spec (term : std_string) (hlen : term.length ≤ 32) :
    ∃ m, gray_synth_iterm term = some m ∧
      ∀ i, m.testBit i = true ↔ term[i]? = some '1' := by
  obtain ⟨m, hm, hbits⟩ := iterm_prefix term term.length hlen
  refine ⟨m, ?_, ?_⟩
  · unfold gray_synth_iterm
    rw [if_pos (by omega), hm]
  · intro i
    rw [hbits]
    by_cases hi : i < term.length
    · simp [hi]
    · have hn : term[i]? = none := List.getElem?_eq_none (by omega)
      simp [hi, hn]

/-- The loop over the arguments passes one mask per term, in order. -/
theorem gray_synth_loop_spec {angle : Type} (ts : List (std_string × angle))
    (hlen : ∀ t ∈ ts, t.1.length ≤ 32) (num_vars : Nat) (parities : List (Nat × angle)) :
    ∃ calls masks, gray_synth_loop ts num_vars parities = some calls ∧
      calls.add_term = parities ++ masks ∧
      List.Forall₂ (fun t c => c.2 = t.2 ∧ gray_synth_iterm t.1 = some c.1 ∧
        ∀ i, c.1.testBit i = true ↔ t.1[i]? = some '1') ts masks := by
  induction ts generalizing num_vars parities with
  | nil => exact ⟨_, [], rfl, by simp, List.Forall₂.nil⟩
  | cons t rest ih =>
    obtain ⟨term, a⟩ := t
    obtain ⟨m, hm, hbits⟩ := gray_synth_iterm_spec term (hlen (term, a) (by simp))
    obtain ⟨calls, masks, h1, h2, h3⟩ :=
      ih (fun t ht => hlen t (List.mem_cons_of_mem _ ht))
        (if num_vars = 0 then term.length % 2 ^ 32 else num_vars) (parities ++ [(m, a)])
    refine ⟨calls, (m, a) :: masks, ?_, ?_, ?_⟩
    · rw [gray_synth_loop]
      simp only [hm]
      exact h1
    · rw [h2]; simp
    · exact List.Forall₂.cons ⟨rfl, hm, hbits⟩ h3

/-- C3: for parity terms of length at most 32, `gray_synth` returns, and the
masks passed to `add_term` correspond to the terms in order, each with the
angle of its term and with bit `i` set exactly when character `i` of the
bitstring is `1`; so the first character is qubit 0, the least significant
bit.  The terms `01`, `10`, `11` give the masks 2, 1, 3. -/
theorem gray_synth_bitstring_encoding {angle : Type} (ts : List (std_string × angle))
    (hlen : ∀ t ∈ ts, t.1.length ≤ 32) (a b c : angle) :
    (∃ calls, gray_synth ts = some calls ∧
      List.Forall₂ (fun t call => call.2 = t.2 ∧ gray_synth_iterm t.1 = some call.1 ∧
        ∀ i, call.1.testBit i = true ↔ t.1[i]? = some '1') ts calls.add_term) ∧
    (gray_synth [("01".toList, a), ("10".toList, b), ("11".toList, c)]).map
        (fun calls => calls.add_term) = some [(2, a), (1, b), (3, c)] := by
  constructor
  · obtain ⟨calls, masks, h1, h2, h3⟩ := gray_synth_loop_spec ts hlen 0 []
    refine ⟨calls, h1, ?_⟩
    rw [h2]
    simpa using h3
  · rfl

/-- C3 at the single term `101`: the mask is 5. -/
theorem gray_synth_bitstring_encoding_witness :
    (∃ calls, gray_synth [("101".toList, (7 : Nat))] = some calls ∧
      List.Forall₂ (fun t call => call.2 = t.2 ∧ gray_synth_iterm t.1 = some call.1 ∧
        ∀ i, call.1.testBit i = true ↔ t.1[i]? = some '1')
        [("101".toList, (7 : Nat))] calls.add_term) ∧
    gray_synth_iterm "101".toList = some 5 :=
  ⟨(gray_synth_bitstring_encoding [("101".toList, (7 : Nat))]
      (by intro t ht; simp at ht; subst ht; decide) 0 0 0).1, by rfl⟩

/-! ### `oracle_synth` -/

/-- Adding qubits in a loop adds `bound` qubits and no gate. -/
theorem for_loop_add_qubit {gate : Type} (bound : Nat) (c0 : netlist_t gate) :
    for_loop bound (fun _ c => netlist_t.add_qubit c) c0 =
      { num_qubits := c0.num_qubits + bound, gates := c0.gates } := by
  unfold for_loop
  induction bound with
  | zero => rfl
  | succ b ih =>
    rw [List.range_succ, List.foldl_append, ih]
    rfl

/-- Without wrap-around `iota` counts upwards from `value`. -/
theorem iota_eq_range' (size value : Nat) (h : value + size ≤ 2 ^ 32) :
    iota size value = List.range' value size := by
  induction size generalizing value with
  | zero => rfl
  | succ n ih =>
    rw [iota, List.range'_succ]
    by_cases hn : n = 0
    · subst hn; rfl
    · have hmod : (value + 1) % 2 ^ 32 = value + 1 := Nat.mod_eq_of_lt (by omega)
      rw [hmod, ih (value + 1) (by omega)]

/-- C4: for a truth table with `n` variables (`n + 1` representable in the
32-bit counter) and every kind, the circuit handed to the single-target-gate
synthesis has exactly `n + 1` qubits and no gate, and the qubit list is
`[0, 1, ..., n]` of length `n + 1`: its last element, the target, is `n`, and
the elements before it, the controls, are `0, ..., n - 1`.  The synthesizer is
called on the given function and its circuit is the one returned. -/
theorem oracle_synth_target_is_last_qubit {network gate : Type}
    (lib : libraries network gate) (function : truth_table_t) (kind : oracle_synth_type)
    (hn : function.num_vars + 1 < 2 ^ 32) :
    (oracle_synth lib function kind).1.circ.num_qubits = function.num_vars + 1 ∧
    (oracle_synth lib function kind).1.circ.gates = [] ∧
    (oracle_synth lib function kind).1.qubits = List.range (function.num_vars + 1) ∧
    (oracle_synth lib function kind).1.qubits.length = function.num_vars + 1 ∧
    (oracle_synth lib function kind).1.qubits.getLast? = some function.num_vars ∧
    (oracle_synth lib function kind).1.qubits.dropLast = List.range function.num_vars ∧
    (oracle_synth lib function kind).1.function = function ∧
    (oracle_synth lib function kind).2 =
      lib.stg_apply (oracle_synth lib function kind).1.synth
        (oracle_synth lib function kind).1.circ (oracle_synth lib function kind).1.qubits
        function := by
  have hb : (function.num_vars + 1) % 2 ^ 32 = function.num_vars + 1 := Nat.mod_eq_of_lt hn
  have hq : (oracle_synth lib function kind).1.qubits = List.range (function.num_vars + 1) := by
    show iota ((function.num_vars + 1) % 2 ^ 32) 0 = _
    rw [hb, iota_eq_range' _ _ (by omega), List.range_eq_range']
  have hc : (oracle_synth lib function kind).1.circ =
      { num_qubits := function.num_vars + 1, gates := [] } := by
    show for_loop ((function.num_vars + 1) % 2 ^ 32) _ _ = _
    rw [hb, for_loop_add_qubit]
    simp [netlist_t.empty]
  refine ⟨by rw [hc], by rw [hc], hq, by rw [hq, List.length_range], ?_, ?_, rfl, rfl⟩
  · rw [hq, List.range_succ]; simp
  · rw [hq, List.range_succ]; simp

/-- C4 at a table of two variables: three qubits, qubit list `[0, 1, 2]`. -/
theorem oracle_synth_target_is_last_qubit_witness :
    (2 : Nat) + 1 < 2 ^ 32 ∧
    (oracle_synth sample_lib { num_vars := 2, bits := [false, false, false, true] }
      oracle_synth_type.pprm).1.circ.num_qubits = 3 ∧
    (oracle_synth sample_lib { num_vars := 2, bits := [false, false, false, true] }
      oracle_synth_type.pprm).1.qubits = [0, 1, 2] :=
  ⟨by norm_num,
    (oracle_synth_target_is_last_qubit sample_lib
      { num_vars := 2, bits := [false, false, false, true] } oracle_synth_type.pprm
      (by norm_num)).1,
    (oracle_synth_target_is_last_qubit sample_lib
      { num_vars := 2, bits := [false, false, false, true] } oracle_synth_type.pprm
      (by norm_num)).2.2.1⟩

/-! ### `lhrs` -/

/-- A run of the wrapper that returns has read the file with one reader call,
then called the synthesis with the selected strategy and the given LUT
synthesis, and returns the circuit and index lists of that call. -/
theorem lhrs_wrapper_ok {network gate : Type} (lib : libraries network gate)
    (LN : LogicNetwork) (filename : std_string) (strategy_type : mapping_strategy_type)
    (lut : lut_synthesis_t) (num_pebbles : Nat) (r : netlist_t gate × stats_map)
    (h : (_lhrs_wrapper lib LN filename strategy_type lut num_pebbles).result = .ok r) :
    ∃ ext reads ntk1, _filename_extension filename = .ok ext ∧
      _lhrs_wrapper_read lib LN filename (transform_tolower ext) (lib.new_network LN)
        = .ok (reads, ntk1) ∧
      (_lhrs_wrapper lib LN filename strategy_type lut num_pebbles).calls =
        reads ++ [lib_call.logic_network_synthesis LN
          (_lhrs_wrapper_strategy strategy_type num_pebbles) lut] ∧
      r.1 = (lib.logic_network_synthesis netlist_t.empty ntk1
          (_lhrs_wrapper_strategy strategy_type num_pebbles) lut).1 ∧
      r.2 = [("input_indexes".toList, (lib.logic_network_synthesis netlist_t.empty ntk1
          (_lhrs_wrapper_strategy strategy_type num_pebbles) lut).2.i_indexes),
        ("output_indexes".toList, (lib.logic_network_synthesis netlist_t.empty ntk1
          (_lhrs_wrapper_strategy strategy_type num_pebbles) lut).2.o_indexes)] := by
  unfold _lhrs_wrapper at h ⊢
  cases hext : _filename_extension filename with
  | error e => rw [hext] at h; cases h
  | ok ext =>
    rw [hext] at h
    simp only at h ⊢
    cases hrd : _lhrs_wrapper_read lib LN filename (transform_tolower ext) (lib.new_network LN) with
    | error e => rw [hrd] at h; cases h
    | ok p =>
      obtain ⟨reads, ntk1⟩ := p
      rw [hrd] at h
      simp only at h ⊢
      have hr := Except.ok.inj h
      subst hr
      refine ⟨ext, reads, ntk1, rfl, hrd, rfl, rfl, ?_⟩
      have hne : ¬ ("input_indexes".toList = "output_indexes".toList) := by decide
      simp only [stats_map.assign, if_neg hne]

/-- The reader dispatch makes exactly one reader call when it succeeds. -/
theorem lhrs_wrapper_read_ok {network gate : Type} (lib : libraries network gate)
    (LN : LogicNetwork) (filename ext : std_string) (ntk ntk1 : network)
    (reads : List lib_call)
    (h : _lhrs_wrapper_read lib LN filename ext ntk = .ok (reads, ntk1)) :
    (reads = [lib_call.read_verilog filename LN] ∧ ntk1 = lib.read_verilog filename ntk) ∨
    (reads = [lib_call.read_aiger filename LN] ∧ ntk1 = lib.read_aiger filename ntk) ∨
    (reads = [lib_call.read_bench filename LN] ∧ ntk1 = lib.read_bench filename ntk) := by
  unfold _lhrs_wrapper_read at h
  split_ifs at h
  all_goals cases h
  · exact Or.inl ⟨rfl, rfl⟩
  · exact Or.inr (Or.inl ⟨rfl, rfl⟩)
  · exact Or.inr (Or.inr ⟨rfl, rfl⟩)

/-- For a strategy other than pebbling the strategy object does not depend on
the number of pebbles. -/
theorem lhrs_wrapper_strategy_no_pebbles (strategy_type : mapping_strategy_type)
    (h : strategy_type ≠ mapping_strategy_type.pebbling) (n n' : Nat) :
    _lhrs_wrapper_strategy strategy_type n = _lhrs_wrapper_strategy strategy_type n' := by
  unfold _lhrs_wrapper_strategy
  simp only [if_neg h]

/-- C6: the strategy lambda selects the Bennett strategy for `bennett`, the
in-place Bennett strategy for `bennett_inplace`, the eager strategy for
`eager`, and for `pebbling` the pebbling strategy with `pebble_limit` equal to
`num_pebbles`; an out-of-range or omitted strategy acts as `bennett_inplace`.
In every run that returns, the selected strategy is the one handed to the
synthesis call.  For a strategy other than pebbling two runs that differ only
in `num_pebbles` make the same calls and end the same way.  The binding of
`lhrs` passes a given strategy and number of pebbles on to the wrapper
unchanged; with the strategy left out it runs the wrapper with
`bennett_inplace`, and a returning run then hands the in-place Bennett
strategy to the synthesis call. -/
theorem lhrs_mapping_strategy_selection {network gate : Type} (lib : libraries network gate)
    (LN : LogicNetwork) (filename : std_string) (strategy_type : mapping_strategy_type)
    (lut : lut_synthesis_t) (num_pebbles num_pebbles' : Nat) :
    _lhrs_wrapper_strategy mapping_strategy_type.bennett num_pebbles =
      mapping_strategy.bennett_mapping_strategy ∧
    _lhrs_wrapper_strategy mapping_strategy_type.bennett_inplace num_pebbles =
      mapping_strategy.bennett_inplace_mapping_strategy ∧
    _lhrs_wrapper_strategy mapping_strategy_type.eager num_pebbles =
      mapping_strategy.eager_mapping_strategy ∧
    _lhrs_wrapper_strategy mapping_strategy_type.pebbling num_pebbles =
      mapping_strategy.pebbling_mapping_strategy { pebble_limit := num_pebbles } ∧
    (strategy_type ≠ mapping_strategy_type.bennett →
      strategy_type ≠ mapping_strategy_type.bennett_inplace →
      strategy_type ≠ mapping_strategy_type.eager →
      strategy_type ≠ mapping_strategy_type.pebbling →
      _lhrs_wrapper lib LN filename strategy_type lut num_pebbles =
        _lhrs_wrapper lib LN filename mapping_strategy_type.bennett_inplace lut num_pebbles) ∧
    (∀ (nt : Option lhrs_network_type) (lk : Option oracle_synth_type) (np : Option Nat),
      lhrs_binding lib filename nt none lk np =
        lhrs_binding lib filename nt (some mapping_strategy_type.bennett_inplace) lk np) ∧
    (∀ r, (_lhrs_wrapper lib LN filename strategy_type lut num_pebbles).result = .ok r →
      (_lhrs_wrapper lib LN filename strategy_type lut num_pebbles).calls.getLast? =
        some (lib_call.logic_network_synthesis LN
          (_lhrs_wrapper_strategy strategy_type num_pebbles) lut)) ∧
    (strategy_type ≠ mapping_strategy_type.pebbling →
      _lhrs_wrapper lib LN filename strategy_type lut num_pebbles =
        _lhrs_wrapper lib LN filename strategy_type lut num_pebbles') ∧
    (∀ (nt : Option lhrs_network_type) (lk : Option oracle_synth_type),
      lhrs_binding lib filename nt (some strategy_type) lk (some num_pebbles) =
        _lhrs_wrapper lib (lhrs_network (nt.getD lhrs_network_type.xag)) filename
          strategy_type (lut_synthesis_fn (lk.getD oracle_synth_type.spectrum)) num_pebbles) ∧
    (∀ (nt : Option lhrs_network_type) (lk : Option oracle_synth_type) (np : Option Nat),
      lhrs_binding lib filename nt none lk np =
        _lhrs_wrapper lib (lhrs_network (nt.getD lhrs_network_type.xag)) filename
          mapping_strategy_type.bennett_inplace
          (lut_synthesis_fn (lk.getD oracle_synth_type.spectrum)) (np.getD 0)) ∧
    (∀ (nt : Option lhrs_network_type) (lk : Option oracle_synth_type) (np : Option Nat) r,
      (lhrs_binding lib filename nt none lk np).result = .ok r →
      (lhrs_binding lib filename nt none lk np).calls.getLast? =
        some (lib_call.logic_network_synthesis
          (lhrs_network (nt.getD lhrs_network_type.xag))
          mapping_strategy.bennett_inplace_mapping_strategy
          (lut_synthesis_fn (lk.getD oracle_synth_type.spectrum)))) ∧
    (∀ (nt : Option lhrs_network_type) (lk : Option oracle_synth_type) r,
      (lhrs_binding lib filename nt (some strategy_type) lk (some num_pebbles)).result
        = .ok r →
      (lhrs_binding lib filename nt (some strategy_type) lk (some num_pebbles)).calls.getLast? =
        some (lib_call.logic_network_synthesis
          (lhrs_network (nt.getD lhrs_network_type.xag))
          (_lhrs_wrapper_strategy strategy_type num_pebbles)
          (lut_synthesis_fn (lk.getD oracle_synth_type.spectrum)))) ∧
    (strategy_type ≠ mapping_strategy_type.pebbling →
      ∀ (nt : Option lhrs_network_type) (lk : Option oracle_synth_type),
        lhrs_binding lib filename nt (some strategy_type) lk (some num_pebbles) =
          lhrs_binding lib filename nt (some strategy_type) lk (some num_pebbles')) := by
  have hlast : ∀ (LN' : LogicNetwork) (st : mapping_strategy_type) (l : lut_synthesis_t)
      (n : Nat) (r : netlist_t gate × stats_map),
      (_lhrs_wrapper lib LN' filename st l n).result = .ok r →
      (_lhrs_wrapper lib LN' filename st l n).calls.getLast? =
        some (lib_call.logic_network_synthesis LN' (_lhrs_wrapper_strategy st n) l) := by
    intro LN' st l n r hr
    obtain ⟨_, reads, _, _, _, hc, _⟩ := lhrs_wrapper_ok lib _ _ _ _ _ r hr
    rw [hc]
    simp
  have hind : ∀ (LN' : LogicNetwork) (l : lut_synthesis_t),
      strategy_type ≠ mapping_strategy_type.pebbling →
      _lhrs_wrapper lib LN' filename strategy_type l num_pebbles =
        _lhrs_wrapper lib LN' filename strategy_type l num_pebbles' := by
    intro LN' l hp
    simp only [_lhrs_wrapper,
      lhrs_wrapper_strategy_no_pebbles strategy_type hp num_pebbles num_pebbles']
  refine ⟨rfl, rfl, rfl, rfl, ?_, fun _ _ _ => rfl, ?_, ?_, fun _ _ => rfl,
    fun _ _ _ => rfl, ?_, ?_, ?_⟩
  · intro ha hb hc hd
    have e : _lhrs_wrapper_strategy strategy_type num_pebbles =
        _lhrs_wrapper_strategy mapping_strategy_type.bennett_inplace num_pebbles := by
      unfold _lhrs_wrapper_strategy
      rw [if_neg hb, if_neg ha, if_neg hc, if_neg hd]
      rfl
    simp only [_lhrs_wrapper, e]
  · exact hlast LN strategy_type lut num_pebbles
  · exact hind LN lut
  · intro nt lk np r hr
    exact hlast (lhrs_network (nt.getD lhrs_network_type.xag))
      mapping_strategy_type.bennett_inplace
      (lut_synthesis_fn (lk.getD oracle_synth_type.spectrum)) (np.getD 0) r hr
  · intro nt lk r hr
    exact hlast (lhrs_network (nt.getD lhrs_network_type.xag)) strategy_type
      (lut_synthesis_fn (lk.getD oracle_synth_type.spectrum)) num_pebbles r hr
  · intro hp nt lk
    exact hind (lhrs_network (nt.getD lhrs_network_type.xag))
      (lut_synthesis_fn (lk.getD oracle_synth_type.spectrum)) hp

/-- C6 for the eager strategy on `a.aig`: 3 or 50 pebbles give the same run,
also through the binding; and `lhrs` called on `a.aig` with the strategy left
out returns after handing the in-place Bennett strategy to the synthesis
call. -/
theorem lhrs_mapping_strategy_selection_witness :
    _lhrs_wrapper sample_lib LogicNetwork.xmg_network "a.aig".toList
        mapping_strategy_type.eager stg.stg_from_pprm 3 =
      _lhrs_wrapper sample_lib LogicNetwork.xmg_network "a.aig".toList
        mapping_strategy_type.eager stg.stg_from_pprm 50 ∧
    lhrs_binding sample_lib "a.aig".toList (some lhrs_network_type.xmg)
        (some mapping_strategy_type.eager) (some oracle_synth_type.pprm) (some 3) =
      lhrs_binding sample_lib "a.aig".toList (some lhrs_network_type.xmg)
        (some mapping_strategy_type.eager) (some oracle_synth_type.pprm) (some 50) ∧
    (lhrs_binding sample_lib "a.aig".toList (some lhrs_network_type.xmg) none
        (some oracle_synth_type.pprm) (some 3)).result =
      .ok ({ num_qubits := 0, gates := [2] },
        [("input_indexes".toList, [0, 1]), ("output_indexes".toList, [2])]) ∧
    (lhrs_binding sample_lib "a.aig".toList (some lhrs_network_type.xmg) none
        (some oracle_synth_type.pprm) (some 3)).calls.getLast? =
      some (lib_call.logic_network_synthesis LogicNetwork.xmg_network
        mapping_strategy.bennett_inplace_mapping_strategy stg.stg_from_pprm) :=
  ⟨(lhrs_mapping_strategy_selection sample_lib LogicNetwork.xmg_network "a.aig".toList
      mapping_strategy_type.eager stg.stg_from_pprm 3 50).2.2.2.2.2.2.2.1 (by decide),
    (lhrs_mapping_strategy_selection sample_lib LogicNetwork.xmg_network "a.aig".toList
      mapping_strategy_type.eager stg.stg_from_pprm 3 50).2.2.2.2.2.2.2.2.2.2.2.2 (by decide)
      (some lhrs_network_type.xmg) (some oracle_synth_type.pprm),
    rfl,
    (lhrs_mapping_strategy_selection sample_lib LogicNetwork.xmg_network "a.aig".toList
      mapping_strategy_type.eager stg.stg_from_pprm 3 50).2.2.2.2.2.2.2.2.2.2.1
      (some lhrs_network_type.xmg) (some oracle_synth_type.pprm) (some 3)
      ({ num_qubits := 0, gates := [2] },
        [("input_indexes".toList, [0, 1]), ("output_indexes".toList, [2])]) rfl⟩

/-- C7: a run of `_lhrs_wrapper` that returns the pair `r` has made one reader
call and then one synthesis call on the network `ntk1` that was read; the
netlist `r.1` is the circuit produced by that synthesis call, and the
dictionary `r.2` has exactly the two keys `input_indexes` and
`output_indexes`, bound to the `i_indexes` and `o_indexes` lists of the
statistics of that same call, unchanged. -/
theorem lhrs_returns_netlist_and_index_dict {network gate : Type}
    (lib : libraries network gate) (LN : LogicNetwork) (filename : std_string)
    (strategy_type : mapping_strategy_type) (lut : lut_synthesis_t) (num_pebbles : Nat)
    (r : netlist_t gate × stats_map)
    (h : (_lhrs_wrapper lib LN filename strategy_type lut num_pebbles).result = .ok r) :
    ∃ reads ntk1,
      (_lhrs_wrapper lib LN filename strategy_type lut num_pebbles).calls =
        reads ++ [lib_call.logic_network_synthesis LN
          (_lhrs_wrapper_strategy strategy_type num_pebbles) lut] ∧
      ((reads = [lib_call.read_verilog filename LN] ∧
          ntk1 = lib.read_verilog filename (lib.new_network LN)) ∨
        (reads = [lib_call.read_aiger filename LN] ∧
          ntk1 = lib.read_aiger filename (lib.new_network LN)) ∨
        (reads = [lib_call.read_bench filename LN] ∧
          ntk1 = lib.read_bench filename (lib.new_network LN))) ∧
      r.1 = (lib.logic_network_synthesis netlist_t.empty ntk1
          (_lhrs_wrapper_strategy strategy_type num_pebbles) lut).1 ∧
      stats_map.find r.2 "input_indexes".toList =
        some (lib.logic_network_synthesis netlist_t.empty ntk1
          (_lhrs_wrapper_strategy strategy_type num_pebbles) lut).2.i_indexes ∧
      stats_map.find r.2 "output_indexes".toList =
        some (lib.logic_network_synthesis netlist_t.empty ntk1
          (_lhrs_wrapper_strategy strategy_type num_pebbles) lut).2.o_indexes ∧
      (∀ key, (stats_map.find r.2 key).isSome = true ↔
        (key = "input_indexes".toList ∨ key = "output_indexes".toList)) ∧
      r.2.length = 2 := by
  obtain ⟨ext, reads, ntk1, _, hrd, hc, h1, h2⟩ := lhrs_wrapper_ok lib _ _ _ _ _ r h
  have hne : ¬ ("input_indexes".toList = "output_indexes".toList) := by decide
  refine ⟨reads, ntk1, hc, lhrs_wrapper_read_ok lib _ _ _ _ _ _ hrd, h1, ?_, ?_, ?_, ?_⟩
  · rw [h2]
    simp only [stats_map.find, if_true]
  · rw [h2]
    simp only [stats_map.find, if_neg hne, if_true]
  · intro key
    rw [h2]
    simp only [stats_map.find]
    by_cases ha : "input_indexes".toList = key
    · rw [if_pos ha]
      simp [ha.symm]
    · rw [if_neg ha]
      by_cases hb : "output_indexes".toList = key
      · rw [if_pos hb]
        simp [hb.symm]
      · rw [if_neg hb]
        have ha' : ¬ key = "input_indexes".toList := fun e => ha e.symm
        have hb' : ¬ key = "output_indexes".toList := fun e => hb e.symm
        simp only [Option.isSome_none, Bool.false_eq_true, false_iff, not_or]
        exact ⟨ha', hb'⟩
  · rw [h2]
    rfl

/-- C7 for `c.bench` read as a klut network with the sample library. -/
theorem lhrs_returns_netlist_and_index_dict_witness :
    (_lhrs_wrapper sample_lib LogicNetwork.klut_network "c.bench".toList
        mapping_strategy_type.pebbling stg.stg_from_spectrum 4).result =
      .ok ({ num_qubits := 0, gates := [3] },
        [("input_indexes".toList, [0, 1]), ("output_indexes".toList, [2])]) ∧
    ∃ reads ntk1,
      (_lhrs_wrapper sample_lib LogicNetwork.klut_network "c.bench".toList
          mapping_strategy_type.pebbling stg.stg_from_spectrum 4).calls =
        reads ++ [lib_call.logic_network_synthesis LogicNetwork.klut_network
          (_lhrs_wrapper_strategy mapping_strategy_type.pebbling 4) stg.stg_from_spectrum] ∧
      ((reads = [lib_call.read_verilog "c.bench".toList LogicNetwork.klut_network] ∧
          ntk1 = sample_lib.read_verilog "c.bench".toList
            (sample_lib.new_network LogicNetwork.klut_network)) ∨
        (reads = [lib_call.read_aiger "c.bench".toList LogicNetwork.klut_network] ∧
          ntk1 = sample_lib.read_aiger "c.bench".toList
            (sample_lib.new_network LogicNetwork.klut_network)) ∨
        (reads = [lib_call.read_bench "c.bench".toList LogicNetwork.klut_network] ∧
          ntk1 = sample_lib.read_bench "c.bench".toList
            (sample_lib.new_network LogicNetwork.klut_network))) ∧
      (({ num_qubits := 0, gates := [3] } : netlist_t Nat),
          ([("input_indexes".toList, [0, 1]), ("output_indexes".toList, [2])] : stats_map)).1 =
        (sample_lib.logic_network_synthesis netlist_t.empty ntk1
          (_lhrs_wrapper_strategy mapping_strategy_type.pebbling 4) stg.stg_from_spectrum).1 :=
  ⟨rfl, by
    obtain ⟨reads, ntk1, h1, h2, h3, _⟩ :=
      lhrs_returns_netlist_and_index_dict sample_lib LogicNetwork.klut_network
        "c.bench".toList mapping_strategy_type.pebbling stg.stg_from_spectrum 4
        ({ num_qubits := 0, gates := [3] },
          [("input_indexes".toList, [0, 1]), ("output_indexes".toList, [2])]) rfl
    exact ⟨reads, ntk1, h1, h2, h3⟩⟩

end revkit
